import Mathlib

/-!
Verification of the streaming partial-JSON parse-and-validate pipeline of
src/streamlit_app.py.

The embedding models, in order:
* `Json` — the value universe produced by the JSON decoders.
* `jsonLoads` — Python's `json.loads` strict decoder (the stdlib dependency
  called on line 84 of the source).  Numbers are kept as their lexemes, so no
  floating-point semantics enter the model; inner decode-error messages are
  collapsed to the coarse "Expecting value" / "Extra data" classification.
* `partialJsonLoads` — the best-effort decoder of the truncated buffer.
* `validateEmails` — JSON-Schema validation specialised to `EMAIL_SCHEMA`
  (lines 14-45 of the source), parameterised by the mutable
  `items.required` list.
* `parse_response_partial`, `parse_response_full` — the two pipeline
  functions (lines 69-104), with the module-global `required` list threaded
  as explicit state, since the shallow `EMAIL_SCHEMA.copy()` mutates it.
* `streamStep` / `runStream` — the per-chunk accumulator loop of `main`
  (lines 171-205), recording each `status.text` progress report.
-/

namespace EmailApp

/-- A decoded JSON value.  Numbers keep their source lexeme (Python would
convert to `int`/`float`; no claim depends on numeric values). -/
inductive Json where
  | null
  | bool (b : Bool)
  | num (lexeme : String)
  | str (s : String)
  | arr (items : List Json)
  | obj (fields : List (String × Json))
deriving Repr

/-- JSON whitespace, as in Python's `json` module (`_w = [ \t\n\r]*`). -/
def isJsonWs (c : Char) : Bool := c == ' ' || c == '\t' || c == '\n' || c == '\r'

/-- Skip JSON whitespace. -/
def dropWs (cs : List Char) : List Char := cs.dropWhile isJsonWs

/-- Value of one hexadecimal digit, for `\uXXXX` escapes. -/
def hexDigitVal (c : Char) : Option Nat :=
  if c.isDigit then some (c.toNat - 48)
  else if 'a' ≤ c ∧ c ≤ 'f' then some (c.toNat - 97 + 10)
  else if 'A' ≤ c ∧ c ≤ 'F' then some (c.toNat - 65 + 10)
  else none

/-- The two-character escapes accepted inside JSON strings. -/
def decodeEscape (c : Char) : Option Char :=
  match c with
  | '"' => some '"'
  | '\\' => some '\\'
  | '/' => some '/'
  | 'b' => some '\x08'
  | 'f' => some '\x0C'
  | 'n' => some '\n'
  | 'r' => some '\r'
  | 't' => some '\t'
  | _ => none

/-- Scan the body of a JSON string after its opening quote, returning the
decoded characters and the input after the closing quote.  Mirrors Python's
strict `scanstring`: raw control characters below 0x20 are rejected, and an
unterminated string or bad escape fails.  (`\uXXXX` surrogate pairing is not
recombined; no claim touches astral characters.) -/
def scanString : List Char → Option (List Char × List Char)
  | [] => none
  | c :: cs =>
    if c == '"' then some ([], cs)
    else if c == '\\' then
      match cs with
      | 'u' :: h1 :: h2 :: h3 :: h4 :: cs2 =>
        match hexDigitVal h1, hexDigitVal h2, hexDigitVal h3, hexDigitVal h4 with
        | some a, some b, some d, some e =>
          (scanString cs2).map (fun p => (Char.ofNat (((a * 16 + b) * 16 + d) * 16 + e) :: p.1, p.2))
        | _, _, _, _ => none
      | e :: cs2 =>
        match decodeEscape e with
        | some d => (scanString cs2).map (fun p => (d :: p.1, p.2))
        | none => none
      | [] => none
    else if c.toNat < 32 then none
    else (scanString cs).map (fun p => (c :: p.1, p.2))

/-- Longest digit run at the head of the input, and the rest. -/
def digitSpan (cs : List Char) : List Char × List Char :=
  (cs.takeWhile Char.isDigit, cs.dropWhile Char.isDigit)

/-- The integer part of Python's NUMBER_RE: `0` stands alone, otherwise a
nonzero digit leads a digit run. -/
def takeIntPart : List Char → Option (List Char × List Char)
  | '0' :: r => some (['0'], r)
  | c :: r =>
    if c.isDigit then
      match digitSpan r with
      | (ds, r2) => some (c :: ds, r2)
    else none
  | [] => none

/-- The optional fraction part `\.\d+`; consumes nothing if absent. -/
def takeFrac (cs : List Char) : List Char × List Char :=
  match cs with
  | '.' :: r =>
    match digitSpan r with
    | ([], _) => ([], cs)
    | (ds, r2) => ('.' :: ds, r2)
  | _ => ([], cs)

/-- The optional exponent part `[eE][-+]?\d+`; consumes nothing if absent. -/
def takeExp (cs : List Char) : List Char × List Char :=
  match cs with
  | e :: '+' :: r =>
    if e == 'e' || e == 'E' then
      match digitSpan r with
      | ([], _) => ([], cs)
      | (ds, r2) => (e :: '+' :: ds, r2)
    else ([], cs)
  | e :: '-' :: r =>
    if e == 'e' || e == 'E' then
      match digitSpan r with
      | ([], _) => ([], cs)
      | (ds, r2) => (e :: '-' :: ds, r2)
    else ([], cs)
  | e :: r =>
    if e == 'e' || e == 'E' then
      match digitSpan r with
      | ([], _) => ([], cs)
      | (ds, r2) => (e :: ds, r2)
    else ([], cs)
  | [] => ([], cs)

/-- Match a JSON number at the head of the input, returning its lexeme. -/
def parseNum (cs : List Char) : Option (String × List Char) :=
  match cs with
  | '-' :: r =>
    match takeIntPart r with
    | none => none
    | some (ip, r2) =>
      match takeFrac r2 with
      | (fp, r3) =>
        match takeExp r3 with
        | (ep, r4) => some (String.mk ('-' :: (ip ++ fp ++ ep)), r4)
  | _ =>
    match takeIntPart cs with
    | none => none
    | some (ip, r2) =>
      match takeFrac r2 with
      | (fp, r3) =>
        match takeExp r3 with
        | (ep, r4) => some (String.mk (ip ++ fp ++ ep), r4)

/-- Strip an expected literal (`null`, `true`, ..., as Python's scanner
compares slices) from the head of the input. -/
def stripLit : List Char → List Char → Option (List Char)
  | [], cs => some cs
  | l :: ls, c :: cs => if c == l then stripLit ls cs else none
  | _ :: _, [] => none

/-- Object construction from the parsed member list: Python builds a `dict`,
so a duplicate key keeps its first position but takes the last value. -/
def insertPair : List (String × Json) → String × Json → List (String × Json)
  | [], p => [p]
  | (k, v) :: rest, p => if k = p.1 then (k, p.2) :: rest else (k, v) :: insertPair rest p

/-- Fold a member list into dict order/values (see `insertPair`). -/
def objOfPairs (ps : List (String × Json)) : List (String × Json) :=
  ps.foldl insertPair []

mutual

/-- One JSON value at the head of the (whitespace-stripped) input, as in
Python's `_scan_once`: string, array, object, the literals, `NaN`,
`Infinity`, `-Infinity`, or a number.  The fuel argument only bounds
recursion depth; callers pass at least the input length plus one. -/
def parseVal : Nat → List Char → Option (Json × List Char)
  | 0, _ => none
  | fuel + 1, cs =>
    match cs with
    | [] => none
    | c :: r =>
      if c == '"' then (scanString r).map (fun p => (Json.str (String.mk p.1), p.2))
      else if c == '[' then
        match dropWs r with
        | ']' :: r2 => some (Json.arr [], r2)
        | r2 => (parseItems fuel r2).map (fun p => (Json.arr p.1, p.2))
      else if c == '{' then
        match dropWs r with
        | '}' :: r2 => some (Json.obj [], r2)
        | r2 => (parseMembers fuel r2).map (fun p => (Json.obj (objOfPairs p.1), p.2))
      else
        match stripLit ['n', 'u', 'l', 'l'] cs with
        | some r2 => some (Json.null, r2)
        | none =>
        match stripLit ['t', 'r', 'u', 'e'] cs with
        | some r2 => some (Json.bool true, r2)
        | none =>
        match stripLit ['f', 'a', 'l', 's', 'e'] cs with
        | some r2 => some (Json.bool false, r2)
        | none =>
        match stripLit ['N', 'a', 'N'] cs with
        | some r2 => some (Json.num "NaN", r2)
        | none =>
        match stripLit ['I', 'n', 'f', 'i', 'n', 'i', 't', 'y'] cs with
        | some r2 => some (Json.num "Infinity", r2)
        | none =>
        match stripLit ['-', 'I', 'n', 'f', 'i', 'n', 'i', 't', 'y'] cs with
        | some r2 => some (Json.num "-Infinity", r2)
        | none => (parseNum cs).map (fun p => (Json.num p.1, p.2))
termination_by structural fuel => fuel

/-- One-or-more comma-separated array elements up to the closing bracket
(the empty array is handled in `parseVal`). -/
def parseItems : Nat → List Char → Option (List Json × List Char)
  | 0, _ => none
  | fuel + 1, cs =>
    match parseVal fuel cs with
    | none => none
    | some (v, r) =>
      match dropWs r with
      | ',' :: r2 =>
        match parseItems fuel (dropWs r2) with
        | some (vs, r3) => some (v :: vs, r3)
        | none => none
      | ']' :: r2 => some ([v], r2)
      | _ => none
termination_by structural fuel => fuel

/-- One-or-more `"key": value` members up to the closing brace (the empty
object is handled in `parseVal`). -/
def parseMembers : Nat → List Char → Option (List (String × Json) × List Char)
  | 0, _ => none
  | fuel + 1, cs =>
    match cs with
    | '"' :: r =>
      match scanString r with
      | none => none
      | some (k, r1) =>
        match dropWs r1 with
        | ':' :: r2 =>
          match parseVal fuel (dropWs r2) with
          | none => none
          | some (v, r3) =>
            match dropWs r3 with
            | ',' :: r4 =>
              match parseMembers fuel (dropWs r4) with
              | some (ms, r5) => some ((String.mk k, v) :: ms, r5)
              | none => none
            | '}' :: r4 => some ([(String.mk k, v)], r4)
            | _ => none
        | _ => none
    | _ => none
termination_by structural fuel => fuel

end

/-- Python's `json.loads`: decode exactly one JSON document, allowing
surrounding whitespace and rejecting trailing data. -/
def jsonLoads (s : String) : Except String Json :=
  match parseVal ((dropWs s.data).length + 1) (dropWs s.data) with
  | none => Except.error "Expecting value"
  | some (j, r) => if dropWs r = [] then Except.ok j else Except.error "Extra data"

/-- Modelled from the spec: the best-effort recovery of the complete leading
elements of a truncated array document (the `partial_json_parser.loads`
dependency, absent from the repository, described in spec sections 4.2 and 9:
close what is open at the truncation point and discard the last element if it
is still structurally incomplete).  Elements are parsed greedily as complete
JSON values; the first element that does not parse completely is dropped
together with everything after it. -/
def partialItems : Nat → List Char → List Json
  | 0, _ => []
  | fuel + 1, cs =>
    match dropWs cs with
    | ']' :: _ => []
    | cs2 =>
      match parseVal (cs2.length + 1) cs2 with
      | none => []
      | some (v, r) =>
        match dropWs r with
        | ',' :: r2 => v :: partialItems fuel r2
        | _ => [v]

/-- Modelled from the spec: `partial_json_parser.loads` on the streamed
buffer.  A buffer opening an array is repaired into the array of its
completely-parsed leading elements (spec section 4.2); any other buffer is
parsed strictly, so garbage that contains no usable opening token is the
failure case the caller's `except` turns into the sentinel. -/
def partialJsonLoads (s : String) : Except String Json :=
  match dropWs s.data with
  | '[' :: r => Except.ok (Json.arr (partialItems (r.length + 1) r))
  | _ => jsonLoads s

/-! ### Schema definition (source lines 14-45) and its validation

`EMAIL_SCHEMA` is an array-of-objects schema.  Its immutable parts are the
six property names (with `date` pattern-constrained) and
`additionalProperties: False`; the only part any code ever assigns to is
`EMAIL_SCHEMA["items"]["required"]`, so that list is carried as the explicit
state `required : List String` throughout. -/

/-- The keys of `EMAIL_SCHEMA.items.properties`, in source order. -/
def emailPropertyNames : List String :=
  ["email_name", "sender", "subject", "preview", "body", "date"]

/-- The initial value of `EMAIL_SCHEMA.items.required` (source line 42). -/
def initialRequired : List String :=
  ["email_name", "sender", "subject", "preview", "body"]

/-- Exactly `\d{4}-\d{2}-\d{2}` over ASCII digits.  (Python's `\d` also
matches non-ASCII decimal digits; no claim involves such input.) -/
def dateShape : List Char → Bool
  | [a, b, c, d, '-', e, f, '-', g, h] =>
    a.isDigit && b.isDigit && c.isDigit && d.isDigit &&
      e.isDigit && f.isDigit && g.isDigit && h.isDigit
  | _ => false

/-- The schema pattern `^\d{4}-\d{2}-\d{2}$` under Python `re` semantics:
`$` also matches just before one trailing newline. -/
def matchesDatePattern (s : String) : Bool :=
  dateShape s.data || ((s.data.getLast? == some '\n') && dateShape s.data.dropLast)

/-- One step of a `jsonschema.ValidationError.absolute_path`. -/
inductive PathElem where
  | idx (i : Nat)
  | key (k : String)
deriving DecidableEq, Repr

/-- The data of a `jsonschema.ValidationError`: the violation path inside the
instance and the human-readable message. -/
structure ValErr where
  path : List PathElem
  message : String
deriving DecidableEq, Repr

/-- The message of a `pattern` violation on `date` (apostrophe-free and with
braces escaped, standing in for the message jsonschema renders). -/
def patternMessage : String :=
  "does not match pattern ^\\d\x7b4\x7d-\\d\x7b2\x7d-\\d\x7b2\x7d$"

/-- The first property of `required` missing from the object, if any. -/
def checkRequired (required : List String) (fields : List (String × Json)) : Option String :=
  required.find? (fun r => !(fields.map Prod.fst).contains r)

/-- The first property of the object outside the schema property set, if any
(`additionalProperties: False`). -/
def checkUnknown (fields : List (String × Json)) : Option String :=
  (fields.map Prod.fst).find? (fun k => !emailPropertyNames.contains k)

/-- Per-property type (all six are strings) and pattern (`date`) checks, at
item index `i`; first violation wins. -/
def checkFields (i : Nat) : List (String × Json) → Except ValErr Unit
  | [] => Except.ok ()
  | (k, w) :: rest =>
    match w with
    | Json.str s =>
      if k = "date" ∧ matchesDatePattern s = false then
        Except.error ⟨[PathElem.idx i, PathElem.key k], patternMessage⟩
      else checkFields i rest
    | _ => Except.error ⟨[PathElem.idx i, PathElem.key k], "is not of type string"⟩

/-- Validate one array item against the item schema.  When several keywords
are violated, the reported error mirrors `jsonschema.validate`'s
`best_match`, which prefers violations with the shorter instance path, so
the item-level `required` / `additionalProperties` violations are reported
before the property-level type/pattern ones. -/
def checkItem (required : List String) (i : Nat) : Json → Except ValErr Unit
  | Json.obj fields =>
    match checkRequired required fields with
    | some r => Except.error ⟨[PathElem.idx i], "required property missing: " ++ r⟩
    | none =>
      match checkUnknown fields with
      | some k =>
        Except.error ⟨[PathElem.idx i], "additional properties are not allowed: " ++ k⟩
      | none => checkFields i fields
  | _ => Except.error ⟨[PathElem.idx i], "is not of type object"⟩

/-- Validate the items of the array in order, numbering from `i`. -/
def checkItems (required : List String) (i : Nat) : List Json → Except ValErr Unit
  | [] => Except.ok ()
  | item :: rest =>
    match checkItem required i item with
    | Except.ok _ => checkItems required (i + 1) rest
    | Except.error e => Except.error e

/-- Modelled from the spec: `jsonschema.validate(value, schema)` for the
schema of source lines 14-45 (the `jsonschema` dependency itself is absent
from the repository), parameterised by the current `items.required` list.
Returns the error `jsonschema.validate` would raise, or `ok`. -/
def validateEmails (required : List String) (v : Json) : Except ValErr Unit :=
  match v with
  | Json.arr items => checkItems required 0 items
  | _ => Except.error ⟨[], "is not of type array"⟩

/-! ### The two pipeline functions (source lines 69-104)

Python exceptions are explicit values here: the try-body of each function is
a separate definition returning `Except`, and the function proper performs
the `except` conversion.  The module global `EMAIL_SCHEMA.items.required` is
threaded as explicit state: `EMAIL_SCHEMA.copy()` (line 73) copies only the
outer dict, so line 74's assignment empties the shared inner list. -/

/-- An exception raised inside a pipeline try-body. -/
inductive PyErr where
  | decodeErr (msg : String)
  | validationErr (e : ValErr)
deriving DecidableEq, Repr

/-- The try-body of `parse_response_partial` (source lines 71-76): partial
parse, then the shallow schema copy with `items.required` cleared — which
clears the shared global list — then relaxed validation.  Returns the
outcome and the `required` state after the call. -/
def parse_response_partial_try (raw : String) (required : List String) :
    Except PyErr Json × List String :=
  match partialJsonLoads raw with
  | Except.error msg => (Except.error (PyErr.decodeErr msg), required)
  | Except.ok emails =>
    match validateEmails [] emails with
    | Except.error e => (Except.error (PyErr.validationErr e), [])
    | Except.ok _ => (Except.ok emails, [])

/-- `parse_response_partial` (source lines 69-78): any exception from the
try-body becomes the sentinel `none`. -/
def parse_response_partial (raw : String) (required : List String) :
    Option Json × List String :=
  match parse_response_partial_try raw required with
  | (Except.ok emails, req2) => (some emails, req2)
  | (Except.error _, req2) => (none, req2)

/-- The failure classification `parse_response_full` signals to its caller
(each branch re-raises as `ValueError` in the source). -/
inductive Failure where
  | parseFailure (raw : String) (decodeMsg : String)
  | schemaFailure (message : String) (path : List PathElem)
  | unexpectedFailure (raw : String) (msg : String)
deriving DecidableEq, Repr

/-- A call on the collaborator `error_container`. -/
inductive SinkCall where
  | errorBox (msg : String)
  | writeBox (msg : String)
deriving DecidableEq, Repr

/-- Render a violation path the way line 97 writes `list(e.absolute_path)`. -/
def pathRender : List PathElem → String
  | [] => ""
  | PathElem.idx i :: rest => toString i ++ "/" ++ pathRender rest
  | PathElem.key k :: rest => k ++ "/" ++ pathRender rest

/-- What one `parse_response_full` call produces: the value returned or the
classified failure raised, the `logger.error` lines, and the
`error_container` calls, in order. -/
structure FullResult where
  result : Except Failure Json
  logged : List String
  surfaced : List SinkCall
deriving Repr

/-- `parse_response_full` (source lines 81-104): strict decode, strict
validation, and the three `except` branches, each logging, surfacing to the
error container, and re-raising.  The decode and validation steps read but
never write the schema state, so the `required` list is returned unchanged.
(The model's try-body raises only the decode and validation errors, so the
`unexpectedFailure` branch of line 99 is never taken.) -/
def parse_response_full (raw : String) (required : List String) :
    FullResult × List String :=
  match jsonLoads raw with
  | Except.error de =>
    let msg := "JSON decode error: " ++ de
    ({ result := Except.error (Failure.parseFailure raw de),
       logged := [msg],
       surfaced := [SinkCall.errorBox ("JSON Parse Failed: " ++ msg),
                    SinkCall.writeBox ("Raw response that failed: " ++ raw)] },
     required)
  | Except.ok emails =>
    match validateEmails required emails with
    | Except.error e =>
      let msg := "Schema validation error: " ++ e.message
      ({ result := Except.error (Failure.schemaFailure e.message e.path),
         logged := [msg],
         surfaced := [SinkCall.errorBox ("Schema Validation Failed: " ++ msg),
                      SinkCall.writeBox ("Failed at path: " ++ pathRender e.path)] },
       required)
    | Except.ok _ => ({ result := Except.ok emails, logged := [], surfaced := [] }, required)

/-! ### The stream accumulator loop of `main` (source lines 171-205) -/

/-- Python `len` on the values the loop can hold. -/
def jsonLen : Json → Nat
  | Json.arr items => items.length
  | Json.obj fields => fields.length
  | Json.str s => s.length
  | _ => 0

/-- Python truthiness of a decoded value (`None` is handled at the call
site; only validated arrays ever reach this test in the loop). -/
def jsonTruthy : Json → Bool
  | Json.null => false
  | Json.bool b => b
  | Json.num lexeme =>
    lexeme.data.any (fun c => c.isDigit && c != '0') || lexeme == "NaN" ||
      lexeme == "Infinity" || lexeme == "-Infinity"
  | Json.str s => !s.isEmpty
  | Json.arr items => !items.isEmpty
  | Json.obj fields => !fields.isEmpty

/-- The loop state: the growing buffer, `partial_emails` (the Progress
State, initially the empty Python list), the schema `required` state, and
the record counts reported by `status.text` so far, in order. -/
structure LoopState where
  buffer : String
  progress : Json
  required : List String
  events : List Nat
deriving Repr

/-- The state at the top of the streaming loop (source lines 171-172). -/
def initState : LoopState :=
  { buffer := "", progress := Json.arr [], required := initialRequired, events := [] }

/-- One iteration of `for chunk in stream_response(...)` (source lines
174-205): append the chunk, try the partial parse, and on
`new_partial_emails and len(new_partial_emails) > len(partial_emails)`
replace the Progress State and report the new count. -/
def streamStep (ls : LoopState) (chunk : String) : LoopState :=
  match ( parse_response_partial (ls.buffer ++ chunk) ls.required).1 with
  | some emails =>
    if jsonTruthy emails = true ∧ jsonLen emails > jsonLen ls.progress then
      { buffer := ls.buffer ++ chunk, progress := emails,
        required := ( parse_response_partial (ls.buffer ++ chunk) ls.required).2,
        events := ls.events ++ [jsonLen emails] }
    else
      { buffer := ls.buffer ++ chunk, progress := ls.progress,
        required := ( parse_response_partial (ls.buffer ++ chunk) ls.required).2,
        events := ls.events }
  | none =>
    { buffer := ls.buffer ++ chunk, progress := ls.progress,
      required := ( parse_response_partial (ls.buffer ++ chunk) ls.required).2,
      events := ls.events }

/-- The whole streaming session over a given chunk sequence. -/
def runStream (chunks : List String) : LoopState :=
  chunks.foldl streamStep initState

/-! ### Parser residue lemmas

Every scanning function leaves a suffix of its input.  These feed the
soundness statement behind claim C4: every record the best-effort decoder
emits was completely parsed from a position inside the buffer, so a dangling
incomplete trailing object can never contribute a record. -/

theorem dropWs_suffix (cs : List Char) : dropWs cs <:+ cs :=
  List.dropWhile_suffix _

theorem scanString_suffix : ∀ (cs s r : List Char), scanString cs = some (s, r) → r <:+ cs := by
  intro cs
  induction cs using scanString.induct with
  | case1 =>
    intro s r h
    exact Option.noConfusion h
  | case2 c cs hq =>
    intro s r h
    rw [scanString.eq_def] at h
    simp only [if_pos hq, Option.some.injEq, Prod.mk.injEq] at h
    obtain ⟨-, rfl⟩ := h
    exact ⟨[c], rfl⟩
  | case3 c hq hb h1 h2 h3 h4 cs2 a b d e he4 he3 he2 he1 ih =>
    intro s r h
    simp only [scanString, if_neg hq, if_pos hb, he1, he2, he3, he4,
      Option.map_eq_some', Prod.mk.injEq] at h
    obtain ⟨p, hp, -, rfl⟩ := h
    obtain ⟨t, rfl⟩ := ih p.1 p.2 hp
    exact ⟨c :: 'u' :: h1 :: h2 :: h3 :: h4 :: t, by simp⟩
  | case4 c hq hb h1 h2 h3 h4 cs2 hnone =>
    intro s r h
    rw [scanString.eq_def] at h
    simp only [if_neg hq, if_pos hb] at h
    exact Option.noConfusion h
  | case5 c hq hb e cs2 hne d hd ih =>
    intro s r h
    simp only [scanString, if_neg hq, if_pos hb, hd, Option.map_eq_some', Prod.mk.injEq] at h
    obtain ⟨p, hp, -, rfl⟩ := h
    obtain ⟨t, rfl⟩ := ih p.1 p.2 hp
    exact ⟨c :: e :: t, by simp⟩
  | case6 c hq hb e cs2 hne hd =>
    intro s r h
    simp only [scanString, if_neg hq, if_pos hb, hd] at h
    exact Option.noConfusion h
  | case7 c hq hb =>
    intro s r h
    rw [scanString.eq_def] at h
    simp only [if_neg hq, if_pos hb] at h
    exact Option.noConfusion h
  | case8 c cs hq hb hc =>
    intro s r h
    rw [scanString.eq_def] at h
    simp only [if_neg hq, if_neg hb, if_pos hc] at h
    exact Option.noConfusion h
  | case9 c cs hq hb hc ih =>
    intro s r h
    rw [scanString.eq_def] at h
    simp only [if_neg hq, if_neg hb, if_neg hc, Option.map_eq_some', Prod.mk.injEq] at h
    obtain ⟨p, hp, -, rfl⟩ := h
    obtain ⟨t, rfl⟩ := ih p.1 p.2 hp
    exact ⟨c :: t, by simp⟩

theorem digitSpan_suffix (cs : List Char) : (digitSpan cs).2 <:+ cs :=
  List.dropWhile_suffix _

theorem takeIntPart_suffix : ∀ (cs ip r : List Char), takeIntPart cs = some (ip, r) → r <:+ cs := by
  intro cs ip r h
  rw [takeIntPart.eq_def] at h
  split at h
  · simp only [Option.some.injEq, Prod.mk.injEq] at h
    obtain ⟨-, rfl⟩ := h
    exact ⟨['0'], rfl⟩
  · rename_i c t hne
    split at h
    · simp only [Option.some.injEq, Prod.mk.injEq] at h
      obtain ⟨-, rfl⟩ := h
      exact (digitSpan_suffix t).trans ⟨[c], rfl⟩
    · exact Option.noConfusion h
  · exact Option.noConfusion h

theorem takeFrac_suffix (cs : List Char) : (takeFrac cs).2 <:+ cs := by
  rw [takeFrac.eq_def]
  split
  · rename_i r
    split
    · exact List.suffix_rfl
    · rename_i ds r2 hne heq
      have : r2 = (digitSpan r).2 := by rw [heq]
      exact (this ▸ digitSpan_suffix r).trans ⟨['.'], rfl⟩
  · exact List.suffix_rfl

theorem takeExp_suffix (cs : List Char) : (takeExp cs).2 <:+ cs := by
  rw [takeExp.eq_def]
  split
  · rename_i e r
    split
    · split
      · exact List.suffix_rfl
      · rename_i ds r2 hne heq
        have : r2 = (digitSpan r).2 := by rw [heq]
        exact (this ▸ digitSpan_suffix r).trans ⟨[e, '+'], rfl⟩
    · exact List.suffix_rfl
  · rename_i e r
    split
    · split
      · exact List.suffix_rfl
      · rename_i ds r2 hne heq
        have : r2 = (digitSpan r).2 := by rw [heq]
        exact (this ▸ digitSpan_suffix r).trans ⟨[e, '-'], rfl⟩
    · exact List.suffix_rfl
  · rename_i e r hne1 hne2
    split
    · split
      · exact List.suffix_rfl
      · rename_i ds r2 hne heq
        have : r2 = (digitSpan r).2 := by rw [heq]
        exact (this ▸ digitSpan_suffix r).trans ⟨[e], rfl⟩
    · exact List.suffix_rfl
  · exact List.suffix_rfl

theorem parseNum_suffix : ∀ (cs : List Char) (lit : String) (r : List Char),
    parseNum cs = some (lit, r) → r <:+ cs := by
  intro cs lit r h
  rw [parseNum.eq_def] at h
  split at h
  · rename_i t
    split at h
    · exact Option.noConfusion h
    · rename_i ip r2 hip
      simp only [Option.some.injEq, Prod.mk.injEq] at h
      obtain ⟨-, rfl⟩ := h
      exact ((takeExp_suffix (takeFrac r2).2).trans (takeFrac_suffix r2)).trans
        ((takeIntPart_suffix t ip r2 hip).trans ⟨['-'], rfl⟩)
  · split at h
    · exact Option.noConfusion h
    · rename_i ip r2 hip
      simp only [Option.some.injEq, Prod.mk.injEq] at h
      obtain ⟨-, rfl⟩ := h
      exact ((takeExp_suffix (takeFrac r2).2).trans (takeFrac_suffix r2)).trans
        (takeIntPart_suffix cs ip r2 hip)

theorem stripLit_suffix : ∀ (ls cs r : List Char), stripLit ls cs = some r → r <:+ cs := by
  intro ls
  induction ls with
  | nil =>
    intro cs r h
    simp only [stripLit, Option.some.injEq] at h
    exact h ▸ List.suffix_rfl
  | cons l ls ih =>
    intro cs r h
    match cs with
    | [] => exact Option.noConfusion h
    | c :: cs2 =>
      simp only [stripLit] at h
      split at h
      · exact (ih cs2 r h).trans ⟨[c], rfl⟩
      · exact Option.noConfusion h

theorem parse_suffix : ∀ (fuel : Nat),
    (∀ cs v r, parseVal fuel cs = some (v, r) → r <:+ cs) ∧
    (∀ cs vs r, parseItems fuel cs = some (vs, r) → r <:+ cs) ∧
    (∀ cs ms r, parseMembers fuel cs = some (ms, r) → r <:+ cs) := by
  intro fuel
  induction fuel with
  | zero =>
    refine ⟨fun cs v r h => ?_, fun cs vs r h => ?_, fun cs ms r h => ?_⟩ <;>
      exact Option.noConfusion h
  | succ n ih =>
    obtain ⟨ihv, ihi, ihm⟩ := ih
    refine ⟨fun cs v r h => ?_, fun cs vs r h => ?_, fun cs ms r h => ?_⟩
    · match cs with
      | [] => exact Option.noConfusion h
      | c :: r1 =>
        simp only [parseVal] at h
        split at h
        · simp only [Option.map_eq_some', Prod.mk.injEq] at h
          obtain ⟨p, hp, -, rfl⟩ := h
          exact (scanString_suffix r1 p.1 p.2 hp).trans ⟨[c], rfl⟩
        · split at h
          · split at h
            · rename_i r2 heq
              simp only [Option.some.injEq, Prod.mk.injEq] at h
              obtain ⟨-, rfl⟩ := h
              have h1 : r2 <:+ dropWs r1 := by rw [heq]; exact ⟨[']'], rfl⟩
              exact (h1.trans (dropWs_suffix r1)).trans ⟨[c], rfl⟩
            · simp only [Option.map_eq_some', Prod.mk.injEq] at h
              obtain ⟨p, hp, -, rfl⟩ := h
              exact ((ihi _ p.1 p.2 hp).trans (dropWs_suffix r1)).trans ⟨[c], rfl⟩
          · split at h
            · split at h
              · rename_i r2 heq
                simp only [Option.some.injEq, Prod.mk.injEq] at h
                obtain ⟨-, rfl⟩ := h
                have h1 : r2 <:+ dropWs r1 := by rw [heq]; exact ⟨['\x7d'], rfl⟩
                exact (h1.trans (dropWs_suffix r1)).trans ⟨[c], rfl⟩
              · simp only [Option.map_eq_some', Prod.mk.injEq] at h
                obtain ⟨p, hp, -, rfl⟩ := h
                exact ((ihm _ p.1 p.2 hp).trans (dropWs_suffix r1)).trans ⟨[c], rfl⟩
            · split at h
              · rename_i r2 heq
                simp only [Option.some.injEq, Prod.mk.injEq] at h
                obtain ⟨-, rfl⟩ := h
                exact stripLit_suffix _ _ _ heq
              · split at h
                · rename_i r2 heq
                  simp only [Option.some.injEq, Prod.mk.injEq] at h
                  obtain ⟨-, rfl⟩ := h
                  exact stripLit_suffix _ _ _ heq
                · split at h
                  · rename_i r2 heq
                    simp only [Option.some.injEq, Prod.mk.injEq] at h
                    obtain ⟨-, rfl⟩ := h
                    exact stripLit_suffix _ _ _ heq
                  · split at h
                    · rename_i r2 heq
                      simp only [Option.some.injEq, Prod.mk.injEq] at h
                      obtain ⟨-, rfl⟩ := h
                      exact stripLit_suffix _ _ _ heq
                    · split at h
                      · rename_i r2 heq
                        simp only [Option.some.injEq, Prod.mk.injEq] at h
                        obtain ⟨-, rfl⟩ := h
                        exact stripLit_suffix _ _ _ heq
                      · split at h
                        · rename_i r2 heq
                          simp only [Option.some.injEq, Prod.mk.injEq] at h
                          obtain ⟨-, rfl⟩ := h
                          exact stripLit_suffix _ _ _ heq
                        · simp only [Option.map_eq_some', Prod.mk.injEq] at h
                          obtain ⟨p, hp, -, rfl⟩ := h
                          exact parseNum_suffix _ p.1 p.2 hp
    · simp only [parseItems] at h
      split at h
      · exact Option.noConfusion h
      · rename_i v0 r0 heq0
        split at h
        · rename_i r2 heq2
          split at h
          · rename_i vs0 r3 heq3
            simp only [Option.some.injEq, Prod.mk.injEq] at h
            obtain ⟨-, rfl⟩ := h
            have h1 : r2 <:+ dropWs r0 := by rw [heq2]; exact ⟨[','], rfl⟩
            exact ((((ihi _ vs0 r3 heq3).trans (dropWs_suffix r2)).trans h1).trans
              (dropWs_suffix r0)).trans (ihv cs v0 r0 heq0)
          · exact Option.noConfusion h
        · rename_i r2 heq2
          simp only [Option.some.injEq, Prod.mk.injEq] at h
          obtain ⟨-, rfl⟩ := h
          have h1 : r2 <:+ dropWs r0 := by rw [heq2]; exact ⟨[']'], rfl⟩
          exact (h1.trans (dropWs_suffix r0)).trans (ihv cs v0 r0 heq0)
        · exact Option.noConfusion h
    · simp only [parseMembers] at h
      split at h
      · rename_i r1
        split at h
        · exact Option.noConfusion h
        · rename_i k r2 heqk
          split at h
          · rename_i r3 heq3
            split at h
            · exact Option.noConfusion h
            · rename_i v0 r4 heq4
              split at h
              · rename_i r5 heq5
                split at h
                · rename_i ms0 r6 heq6
                  simp only [Option.some.injEq, Prod.mk.injEq] at h
                  obtain ⟨-, rfl⟩ := h
                  have h1 : r5 <:+ dropWs r4 := by rw [heq5]; exact ⟨[','], rfl⟩
                  have h2 : r3 <:+ dropWs r2 := by rw [heq3]; exact ⟨[':'], rfl⟩
                  exact (((((((ihm _ ms0 r6 heq6).trans (dropWs_suffix r5)).trans h1).trans
                    (dropWs_suffix r4)).trans
                    ((ihv _ v0 r4 heq4).trans (dropWs_suffix r3))).trans h2).trans
                    ((dropWs_suffix r2).trans (scanString_suffix r1 k r2 heqk))).trans
                    ⟨['"'], rfl⟩
                · exact Option.noConfusion h
              · rename_i r5 heq5
                simp only [Option.some.injEq, Prod.mk.injEq] at h
                obtain ⟨-, rfl⟩ := h
                have h1 : r5 <:+ dropWs r4 := by rw [heq5]; exact ⟨['\x7d'], rfl⟩
                have h2 : r3 <:+ dropWs r2 := by rw [heq3]; exact ⟨[':'], rfl⟩
                exact ((((h1.trans (dropWs_suffix r4)).trans
                  ((ihv _ v0 r4 heq4).trans (dropWs_suffix r3))).trans h2).trans
                  ((dropWs_suffix r2).trans (scanString_suffix r1 k r2 heqk))).trans
                  ⟨['"'], rfl⟩
              · exact Option.noConfusion h
          · exact Option.noConfusion h
      · exact Option.noConfusion h

/-! ### Element soundness: every decoded array element was itself parsed
completely from a position inside the input. -/

theorem parseItems_sound : ∀ (fuel : Nat) (cs : List Char) (vs : List Json) (r : List Char),
    parseItems fuel cs = some (vs, r) →
    ∀ v ∈ vs, ∃ cs2 f r2, cs2 <:+ cs ∧ parseVal f cs2 = some (v, r2) := by
  intro fuel
  induction fuel with
  | zero =>
    intro cs vs r h
    exact Option.noConfusion h
  | succ n ih =>
    intro cs vs r h
    simp only [parseItems] at h
    split at h
    · exact Option.noConfusion h
    · rename_i v0 r0 heq0
      split at h
      · rename_i r2 heq2
        split at h
        · rename_i vs0 r3 heq3
          simp only [Option.some.injEq, Prod.mk.injEq] at h
          obtain ⟨rfl, -⟩ := h
          intro v hv
          rcases List.mem_cons.mp hv with rfl | hv
          · exact ⟨cs, n, r0, List.suffix_rfl, heq0⟩
          · obtain ⟨cs2, f, r4, hsfx, hp⟩ := ih (dropWs r2) vs0 r3 heq3 v hv
            have h1 : r2 <:+ dropWs r0 := by rw [heq2]; exact ⟨[','], rfl⟩
            exact ⟨cs2, f, r4,
              ((((hsfx.trans (dropWs_suffix r2)).trans h1).trans (dropWs_suffix r0)).trans
                ((parse_suffix n).1 cs v0 r0 heq0)), hp⟩
        · exact Option.noConfusion h
      · rename_i r2 heq2
        simp only [Option.some.injEq, Prod.mk.injEq] at h
        obtain ⟨rfl, -⟩ := h
        intro v hv
        rcases List.mem_cons.mp hv with rfl | hv
        · exact ⟨cs, n, r0, List.suffix_rfl, heq0⟩
        · exact absurd hv (List.not_mem_nil v)
      · exact Option.noConfusion h

theorem parseVal_arr_sound : ∀ (fuel : Nat) (cs : List Char) (l : List Json) (r : List Char),
    parseVal fuel cs = some (Json.arr l, r) →
    ∀ v ∈ l, ∃ cs2 f r2, cs2 <:+ cs ∧ parseVal f cs2 = some (v, r2) := by
  intro fuel cs l r h
  match fuel, cs with
  | 0, _ => exact Option.noConfusion h
  | n + 1, [] => exact Option.noConfusion h
  | n + 1, c :: r1 =>
    simp only [parseVal] at h
    split at h
    · simp only [Option.map_eq_some', Prod.mk.injEq] at h
      obtain ⟨p, -, he, -⟩ := h
      exact absurd he (by simp)
    · split at h
      · split at h
        · rename_i r2 heq
          simp only [Option.some.injEq, Prod.mk.injEq] at h
          obtain ⟨he, -⟩ := h
          obtain rfl : [] = l := by injection he
          intro v hv
          exact absurd hv (List.not_mem_nil v)
        · simp only [Option.map_eq_some', Prod.mk.injEq] at h
          obtain ⟨p, hp, he, -⟩ := h
          obtain rfl : p.1 = l := by injection he
          intro v hv
          obtain ⟨cs2, f, r3, hsfx, hv2⟩ :=
            parseItems_sound n (dropWs r1) p.1 p.2 (by rw [← hp]) v hv
          exact ⟨cs2, f, r3, (hsfx.trans (dropWs_suffix r1)).trans ⟨[c], rfl⟩, hv2⟩
      · split at h
        · split at h
          · rename_i r2 heq
            simp only [Option.some.injEq, Prod.mk.injEq] at h
            obtain ⟨he, -⟩ := h
            exact absurd he (by simp)
          · simp only [Option.map_eq_some', Prod.mk.injEq] at h
            obtain ⟨p, -, he, -⟩ := h
            exact absurd he (by simp)
        · split at h
          · simp only [Option.some.injEq, Prod.mk.injEq] at h
            obtain ⟨he, -⟩ := h
            exact absurd he (by simp)
          · split at h
            · simp only [Option.some.injEq, Prod.mk.injEq] at h
              obtain ⟨he, -⟩ := h
              exact absurd he (by simp)
            · split at h
              · simp only [Option.some.injEq, Prod.mk.injEq] at h
                obtain ⟨he, -⟩ := h
                exact absurd he (by simp)
              · split at h
                · simp only [Option.some.injEq, Prod.mk.injEq] at h
                  obtain ⟨he, -⟩ := h
                  exact absurd he (by simp)
                · split at h
                  · simp only [Option.some.injEq, Prod.mk.injEq] at h
                    obtain ⟨he, -⟩ := h
                    exact absurd he (by simp)
                  · split at h
                    · simp only [Option.some.injEq, Prod.mk.injEq] at h
                      obtain ⟨he, -⟩ := h
                      exact absurd he (by simp)
                    · simp only [Option.map_eq_some', Prod.mk.injEq] at h
                      obtain ⟨p, -, he, -⟩ := h
                      exact absurd he (by simp)

theorem partialItems_sound : ∀ (fuel : Nat) (cs : List Char),
    ∀ v ∈ partialItems fuel cs,
    ∃ cs2 f r2, cs2 <:+ cs ∧ parseVal f cs2 = some (v, r2) := by
  intro fuel
  induction fuel with
  | zero =>
    intro cs v hv
    exact absurd hv (List.not_mem_nil v)
  | succ n ih =>
    intro cs v hv
    simp only [partialItems] at hv
    split at hv
    · exact absurd hv (List.not_mem_nil v)
    · split at hv
      · exact absurd hv (List.not_mem_nil v)
      · rename_i v0 r0 heq0
        split at hv
        · rename_i r2 heq2
          rcases List.mem_cons.mp hv with rfl | hv
          · exact ⟨dropWs cs, (dropWs cs).length + 1, r0, dropWs_suffix cs, heq0⟩
          · obtain ⟨cs2, f, r3, hsfx, hp⟩ := ih r2 v hv
            have h1 : r2 <:+ dropWs r0 := by rw [heq2]; exact ⟨[','], rfl⟩
            exact ⟨cs2, f, r3,
              ((hsfx.trans h1).trans (dropWs_suffix r0)).trans
                (((parse_suffix ((dropWs cs).length + 1)).1 _ v0 r0 heq0).trans
                  (dropWs_suffix cs)), hp⟩
        · rcases List.mem_cons.mp hv with rfl | hv
          · exact ⟨dropWs cs, (dropWs cs).length + 1, r0, dropWs_suffix cs, heq0⟩
          · exact absurd hv (List.not_mem_nil v)

/-- Every record the best-effort decoder returns arises from a complete
`parseVal` run starting at some position inside the buffer; a trailing
object that cannot be completely parsed therefore never contributes. -/
theorem partialJsonLoads_sound : ∀ (raw : String) (l : List Json),
    partialJsonLoads raw = Except.ok (Json.arr l) →
    ∀ v ∈ l, ∃ cs2 f r2, cs2 <:+ raw.data ∧ parseVal f cs2 = some (v, r2) := by
  intro raw l h
  rw [partialJsonLoads.eq_def] at h
  split at h
  · rename_i r heq
    simp only [Except.ok.injEq] at h
    obtain rfl : partialItems (r.length + 1) r = l := by injection h
    intro v hv
    obtain ⟨cs2, f, r2, hsfx, hp⟩ := partialItems_sound (r.length + 1) r v hv
    have h1 : r <:+ dropWs raw.data := by rw [heq]; exact ⟨['['], rfl⟩
    exact ⟨cs2, f, r2, (hsfx.trans h1).trans (dropWs_suffix raw.data), hp⟩
  · rw [jsonLoads.eq_def] at h
    split at h
    · exact Except.noConfusion h
    · rename_i j r heq
      split at h
      · simp only [Except.ok.injEq] at h
        subst h
        intro v hv
        obtain ⟨cs2, f, r2, hsfx, hp⟩ :=
          parseVal_arr_sound ((dropWs raw.data).length + 1) (dropWs raw.data) l r heq v hv
        exact ⟨cs2, f, r2, hsfx.trans (dropWs_suffix raw.data), hp⟩
      · exact Except.noConfusion h

/-! ### The acceptance predicate of the claims, and the characterization of
the validator against it.

`strictAccepts` is written from the words of claim C2 (with the field set as
the source actually declares it): an array of objects whose properties are
drawn from the six schema fields, all string-valued, with the five required
fields present and `date`, when present, matching the pattern. -/

/-- A present property is well-typed: a string, and the pattern holds when
the property is `date`. -/
def fieldTypeOk (p : String × Json) : Bool :=
  match p.2 with
  | Json.str s => p.1 != "date" || matchesDatePattern s
  | _ => false

/-- A present property is drawn from the schema property set and well-typed. -/
def fieldAccepted (p : String × Json) : Bool :=
  emailPropertyNames.contains p.1 && fieldTypeOk p

/-- One record as claim C2 describes it. -/
def recordAccepted : Json → Bool
  | Json.obj fields =>
    initialRequired.all (fun q => (fields.map Prod.fst).contains q) && fields.all fieldAccepted
  | _ => false

/-- The whole instance as claim C2 describes it. -/
def strictAccepts : Json → Bool
  | Json.arr items => items.all recordAccepted
  | _ => false

theorem checkFields_ok_iff : ∀ (i : Nat) (fields : List (String × Json)),
    checkFields i fields = Except.ok () ↔ fields.all fieldTypeOk = true := by
  intro i fields
  induction fields with
  | nil => simp [checkFields]
  | cons p rest ih =>
    obtain ⟨k, w⟩ := p
    cases w with
    | str s =>
      by_cases hd : k = "date" ∧ matchesDatePattern s = false
      · simp only [checkFields]
        rw [if_pos hd]
        obtain ⟨rfl, hm⟩ := hd
        simp [fieldTypeOk, hm]
      · simp only [checkFields]
        rw [if_neg hd, ih, List.all_cons, Bool.and_eq_true]
        rw [not_and_or] at hd
        constructor
        · intro hall
          refine ⟨?_, hall⟩
          rcases hd with hk | hm
          · simp [fieldTypeOk, hk]
          · have hm2 : matchesDatePattern s = true := by simpa using hm
            simp [fieldTypeOk, hm2]
        · exact fun hx => hx.2
    | null => simp [checkFields, fieldTypeOk]
    | bool b => simp [checkFields, fieldTypeOk]
    | num lx => simp [checkFields, fieldTypeOk]
    | arr l => simp [checkFields, fieldTypeOk]
    | obj m => simp [checkFields, fieldTypeOk]

theorem checkItem_ok_iff : ∀ (required : List String) (i : Nat) (item : Json),
    checkItem required i item = Except.ok () ↔
      ∃ fields, item = Json.obj fields ∧ checkRequired required fields = none ∧
        checkUnknown fields = none ∧ fields.all fieldTypeOk = true := by
  intro required i item
  cases item with
  | obj fields =>
    simp only [checkItem]
    split
    · rename_i q hq
      simp [hq]
    · rename_i hq
      split
      · rename_i k hk
        simp [hq, hk]
      · rename_i hk
        rw [checkFields_ok_iff i fields]
        simp [hq, hk]
  | null => simp [checkItem]
  | bool b => simp [checkItem]
  | num lx => simp [checkItem]
  | str s => simp [checkItem]
  | arr l => simp [checkItem]

theorem checkItems_ok_iff : ∀ (required : List String) (i : Nat) (items : List Json),
    checkItems required i items = Except.ok () ↔
      ∀ item ∈ items, ∃ fields, item = Json.obj fields ∧
        checkRequired required fields = none ∧
        checkUnknown fields = none ∧ fields.all fieldTypeOk = true := by
  intro required i items
  induction items generalizing i with
  | nil => simp [checkItems]
  | cons item rest ih =>
    simp only [checkItems]
    split
    · rename_i hok
      rw [ih (i + 1)]
      constructor
      · intro hall x hx
        rcases List.mem_cons.mp hx with rfl | hx
        · exact (checkItem_ok_iff required i x).mp hok
        · exact hall x hx
      · intro hall x hx
        exact hall x (List.mem_cons_of_mem item hx)
    · rename_i e herr
      constructor
      · intro hx
        exact Except.noConfusion hx
      · intro hall
        have := (checkItem_ok_iff required i item).mpr (hall item (List.mem_cons_self item rest))
        rw [this] at herr
        exact Except.noConfusion herr

theorem checkRequired_none_iff : ∀ (required : List String) (fields : List (String × Json)),
    checkRequired required fields = none ↔
      required.all (fun q => (fields.map Prod.fst).contains q) = true := by
  intro required fields
  simp [checkRequired, List.find?_eq_none, List.all_eq_true]

theorem checkUnknown_none_iff : ∀ (fields : List (String × Json)),
    checkUnknown fields = none ↔
      fields.all (fun p => emailPropertyNames.contains p.1) = true := by
  intro fields
  simp [checkUnknown, List.find?_eq_none, List.all_eq_true]

/-- C2 (amended): the strict schema accepts exactly arrays of objects whose
properties are drawn from the six schema fields — email_name, sender,
subject, preview, body (the five required strings) and date (optional,
pattern-constrained) — rejecting unknown properties; `strictAccepts` is the
acceptance predicate written from the claim's words. -/
theorem C2_theorem : ∀ (v : Json),
    validateEmails initialRequired v = Except.ok () ↔ strictAccepts v = true := by
  intro v
  cases v with
  | arr items =>
    simp only [validateEmails, strictAccepts, checkItems_ok_iff, List.all_eq_true]
    apply forall₂_congr
    intro item hmem
    constructor
    · rintro ⟨fields, rfl, hreq, hunk, htyp⟩
      simp only [recordAccepted, Bool.and_eq_true]
      refine ⟨(checkRequired_none_iff _ _).mp hreq, ?_⟩
      rw [checkUnknown_none_iff] at hunk
      simp only [List.all_eq_true] at hunk htyp ⊢
      intro p hp
      simp only [fieldAccepted, Bool.and_eq_true]
      exact ⟨hunk p hp, htyp p hp⟩
    · intro hacc
      cases item with
      | obj fields =>
        simp only [recordAccepted, Bool.and_eq_true] at hacc
        obtain ⟨hreq, hall⟩ := hacc
        refine ⟨fields, rfl, (checkRequired_none_iff _ _).mpr hreq, ?_, ?_⟩
        · rw [checkUnknown_none_iff]
          simp only [List.all_eq_true] at hall ⊢
          intro p hp
          exact (Bool.and_eq_true .. ▸ hall p hp).1
        · simp only [List.all_eq_true] at hall ⊢
          intro p hp
          exact (Bool.and_eq_true .. ▸ hall p hp).2
      | null => simp [recordAccepted] at hacc
      | bool b => simp [recordAccepted] at hacc
      | num lx => simp [recordAccepted] at hacc
      | str s => simp [recordAccepted] at hacc
      | arr l => simp [recordAccepted] at hacc
  | null => simp [validateEmails, strictAccepts]
  | bool b => simp [validateEmails, strictAccepts]
  | num lx => simp [validateEmails, strictAccepts]
  | str s => simp [validateEmails, strictAccepts]
  | obj m => simp [validateEmails, strictAccepts]


/-! ### Composition shape of the pipeline functions -/

/-- `parse_response_partial` written as one decision tree, for case analysis. -/
theorem partial_eq (raw : String) (req : List String) :
    parse_response_partial raw req =
      match partialJsonLoads raw with
      | Except.error _ => (none, req)
      | Except.ok emails =>
        match validateEmails [] emails with
        | Except.error _ => (none, [])
        | Except.ok _ => (some emails, []) := by
  unfold parse_response_partial parse_response_partial_try
  cases hpl : partialJsonLoads raw with
  | error msg => rfl
  | ok emails =>
    dsimp only
    cases hv : validateEmails [] emails with
    | error e => rfl
    | ok u => cases u; rfl

/-- A partial-parse success is a relaxed-schema-valid value, and the call has
emptied the shared `required` list. -/
theorem partial_some_spec (raw : String) (req : List String) (j : Json)
    (h : ( parse_response_partial raw req).1 = some j) :
    validateEmails [] j = Except.ok () ∧ ( parse_response_partial raw req).2 = [] := by
  rw [partial_eq] at h ⊢
  cases hpl : partialJsonLoads raw with
  | error msg =>
    rw [hpl] at h
    exact Option.noConfusion h
  | ok emails =>
    rw [hpl] at h
    dsimp only at h ⊢
    cases hv : validateEmails [] emails with
    | error e =>
      rw [hv] at h
      exact Option.noConfusion h
    | ok u =>
      cases u
      rw [hv] at h
      obtain rfl : emails = j := by injection h
      exact ⟨hv, rfl⟩

/-- A value the validator accepts is an array (the schema has type array). -/
theorem validateEmails_ok_arr (req : List String) (v : Json)
    (h : validateEmails req v = Except.ok ()) : ∃ items, v = Json.arr items := by
  cases v with
  | arr items => exact ⟨items, rfl⟩
  | null => exact Except.noConfusion h
  | bool b => exact Except.noConfusion h
  | num lx => exact Except.noConfusion h
  | str s => exact Except.noConfusion h
  | obj m => exact Except.noConfusion h

/-- `parse_response_full` never writes the schema state. -/
theorem full_state_id (raw : String) (req : List String) :
    ( parse_response_full raw req).2 = req := by
  unfold parse_response_full
  cases jsonLoads raw with
  | error de => rfl
  | ok emails =>
    dsimp only
    cases validateEmails req emails with
    | error e => rfl
    | ok u => rfl

/-! ### The accumulator loop invariant -/

/-- The events reported so far are strictly increasing and all bounded by the
current Progress State count. -/
def goodEvents (ls : LoopState) : Prop :=
  ls.events.Pairwise (· < ·) ∧ ∀ e ∈ ls.events, e ≤ jsonLen ls.progress

theorem streamStep_good (ls : LoopState) (chunk : String) (h : goodEvents ls) :
    goodEvents (streamStep ls chunk) := by
  obtain ⟨hpw, hle⟩ := h
  unfold streamStep
  cases hpr : ( parse_response_partial (ls.buffer ++ chunk) ls.required).1 with
  | none => exact ⟨hpw, hle⟩
  | some emails =>
    dsimp only
    by_cases hc : jsonTruthy emails = true ∧ jsonLen emails > jsonLen ls.progress
    · rw [if_pos hc]
      constructor
      · refine List.pairwise_append.mpr ⟨hpw, List.pairwise_singleton .., ?_⟩
        intro a ha b hb
        rw [List.mem_singleton] at hb
        subst hb
        exact lt_of_le_of_lt (hle a ha) hc.2
      · intro e he
        rcases List.mem_append.mp he with he | he
        · exact le_of_lt (lt_of_le_of_lt (hle e he) hc.2)
        · rw [List.mem_singleton] at he
          subst he
          exact le_refl _
    · rw [if_neg hc]
      exact ⟨hpw, hle⟩

theorem foldl_good : ∀ (chunks : List String) (ls : LoopState),
    goodEvents ls → goodEvents (List.foldl streamStep ls chunks) := by
  intro chunks
  induction chunks with
  | nil => exact fun ls h => h
  | cons chunk rest ih => exact fun ls h => ih (streamStep ls chunk) (streamStep_good ls chunk h)

/-- An event is recorded at a step exactly when the partial parse+validate
succeeds with a strictly larger count (the Python truthiness conjunct of the
guard is redundant: a validated success is an array, and a length strictly
above something is positive). -/
theorem streamStep_event_iff (ls : LoopState) (chunk : String) :
    (streamStep ls chunk).events ≠ ls.events ↔
      ∃ emails, ( parse_response_partial (ls.buffer ++ chunk) ls.required).1 = some emails ∧
        jsonLen emails > jsonLen ls.progress := by
  unfold streamStep
  cases hpr : ( parse_response_partial (ls.buffer ++ chunk) ls.required).1 with
  | none =>
    simp only [ne_eq, not_true_eq_false, false_iff]
    rintro ⟨emails, heq, -⟩
    exact Option.noConfusion heq
  | some emails =>
    dsimp only
    by_cases hc : jsonTruthy emails = true ∧ jsonLen emails > jsonLen ls.progress
    · rw [if_pos hc]
      simp only [ne_eq]
      constructor
      · intro hne
        exact ⟨emails, rfl, hc.2⟩
      · intro hex h
        have := congrArg List.length h
        simp at this
    · rw [if_neg hc]
      simp only [ne_eq, not_true_eq_false, false_iff]
      rintro ⟨emails2, heq, hlen⟩
      obtain rfl : emails = emails2 := by injection heq
      apply hc
      refine ⟨?_, hlen⟩
      obtain ⟨hval, -⟩ := partial_some_spec (ls.buffer ++ chunk) ls.required emails hpr
      obtain ⟨items, rfl⟩ := validateEmails_ok_arr [] emails hval
      cases items with
      | nil => exact absurd hlen (by simp [jsonLen])
      | cons a rest => simp [jsonTruthy]


/-! ### The claims -/

/-- The buffer of the claim C3 scenario, exactly as the claim states it. -/
def bufC3 : String :=
  "[\x7b\"name\":\"a\",\"sender\":\"s\",\"subject\":\"su\",\"preview\":\"p\",\"body\":\"b\",\"date\":\"2024-13-40\"\x7d]"

/-- The truncated buffer of the claim C4 scenario, exactly as stated. -/
def bufC4 : String :=
  "[\x7b\"name\":\"a\",\"sender\":\"s\",\"subject\":\"su\",\"preview\":\"p\",\"body\":\"b\"\x7d,\x7b\"name\""

/-- The claim C4 buffer with the field name the source schema declares. -/
def bufC4fixed : String :=
  "[\x7b\"email_name\":\"a\",\"sender\":\"s\",\"subject\":\"su\",\"preview\":\"p\",\"body\":\"b\"\x7d,\x7b\"email_name\""

/-- C1: the spec demands that deriving the relaxed schema leave `EMAIL_SCHEMA`
unchanged and that `parse_response_partial` be pure, but `EMAIL_SCHEMA.copy()`
on source line 73 copies only the outer dict, so line 74 empties the shared
`items.required` list in place: at the failing input `[]` the call succeeds
and afterwards the required list is `[]`, no longer its initial five-element
value. -/
theorem C1_schema_mutated :
    parse_response_partial "[]" initialRequired = (some (Json.arr []), []) ∧
    initialRequired ≠ [] :=
  ⟨rfl, by decide⟩

/-- C2 counterexample: an array whose single object carries exactly the five
fields the claim names as required — with the claimed field `name` — is
rejected by the strict schema, because the source schema requires
`email_name` (and forbids `name` as an additional property). -/
theorem C2_counterexample :
    validateEmails initialRequired (Json.arr [Json.obj [("name", Json.str "a"),
        ("sender", Json.str "s"), ("subject", Json.str "su"), ("preview", Json.str "p"),
        ("body", Json.str "b")]]) =
      Except.error ⟨[PathElem.idx 0], "required property missing: email_name"⟩ ∧
    validateEmails initialRequired (Json.arr [Json.obj [("email_name", Json.str "a"),
        ("sender", Json.str "s"), ("subject", Json.str "su"), ("preview", Json.str "p"),
        ("body", Json.str "b")]]) = Except.ok () :=
  ⟨rfl, rfl⟩

/-- C3 counterexample: on the buffer the claim states, the Final Validator
reports the schema violation at item 0 — the required property `email_name`
is missing (the claimed field name `name` is not the schema's) — and not a
pattern mismatch on `date`; indeed the claimed date `2024-13-40` fully
matches the pattern `^\d{4}-\d{2}-\d{2}$`, which constrains shape only, so a
pattern-mismatch report on this buffer is impossible. -/
theorem C3_counterexample :
    ( parse_response_full bufC3 initialRequired).1.result =
      Except.error (Failure.schemaFailure "required property missing: email_name"
        [PathElem.idx 0]) ∧
    matchesDatePattern "2024-13-40" = true :=
  ⟨rfl, rfl⟩

/-- C3 (amended): on the stated buffer the Final Validator fails with a
SchemaFailure — carrying the violation at item 0, the missing required
property `email_name` — and not with a ParseFailure: the result is exactly
the SchemaFailure value below, which is no `Failure.parseFailure`. -/
theorem C3_theorem :
    ( parse_response_full bufC3 initialRequired).1.result =
      Except.error (Failure.schemaFailure "required property missing: email_name"
        [PathElem.idx 0]) ∧
    ( parse_response_full bufC3 initialRequired).1.logged =
      ["Schema validation error: required property missing: email_name"] :=
  ⟨rfl, rfl⟩

/-- C4 counterexample: on the truncated buffer the claim states, the Partial
Parser returns the sentinel `none` — not a one-record sequence — because the
complete first object uses the claimed field `name`, which the relaxed
schema (`additionalProperties: False`) rejects; the call still empties the
shared required list. -/
theorem C4_counterexample :
    parse_response_partial bufC4 initialRequired = (none, []) :=
  rfl

/-- C4 (amended): with the field name the source schema declares, the Partial
Parser returns exactly the complete first record and drops the dangling
second object; and in general every record in a best-effort parse result
arises from a complete `parseVal` run at a position inside the buffer, so a
truncated trailing object never contributes a record. -/
theorem C4_theorem :
    parse_response_partial bufC4fixed initialRequired =
      (some (Json.arr [Json.obj [("email_name", Json.str "a"), ("sender", Json.str "s"),
        ("subject", Json.str "su"), ("preview", Json.str "p"), ("body", Json.str "b")]]),
        []) ∧
    ∀ (raw : String) (l : List Json), partialJsonLoads raw = Except.ok (Json.arr l) →
      ∀ v ∈ l, ∃ cs2 f r2, cs2 <:+ raw.data ∧ parseVal f cs2 = some (v, r2) :=
  ⟨rfl, partialJsonLoads_sound⟩

/-- C4 witness: the general half of `C4_theorem` applied at the concrete
buffer `[{}]`, whose single record `{}` is completely parsed inside it. -/
theorem C4_witness :
    ∃ cs2 f r2, cs2 <:+ ("[\x7b\x7d]" : String).data ∧
      parseVal f cs2 = some (Json.obj [], r2) :=
  C4_theorem.2 "[\x7b\x7d]" [Json.obj []] rfl (Json.obj []) (List.mem_singleton.mpr rfl)

/-- C5: `parse_response_partial` is total and sentinel-converting: whatever
the input, it returns `some` validated-relaxed value exactly when its
try-body succeeds, and converts any internal error of the try-body — partial
decode failure or validation failure — into the sentinel `none` rather than
propagating it. -/
theorem C5_theorem : ∀ (raw : String) (required : List String),
    match parse_response_partial raw required with
    | (some emails, req2) =>
        parse_response_partial_try raw required = (Except.ok emails, req2) ∧
        validateEmails [] emails = Except.ok ()
    | (none, req2) =>
        ∃ e, parse_response_partial_try raw required = (Except.error e, req2) := by
  intro raw required
  cases hpl : partialJsonLoads raw with
  | error msg =>
    have h1 : parse_response_partial_try raw required =
        (Except.error (PyErr.decodeErr msg), required) := by
      unfold parse_response_partial_try
      rw [hpl]
    have h2 : parse_response_partial raw required = (none, required) := by
      unfold parse_response_partial
      rw [h1]
    rw [h2]
    exact ⟨PyErr.decodeErr msg, h1⟩
  | ok emails =>
    cases hv : validateEmails [] emails with
    | error e =>
      have h1 : parse_response_partial_try raw required =
          (Except.error (PyErr.validationErr e), []) := by
        unfold parse_response_partial_try
        rw [hpl]
        dsimp only
        rw [hv]
      have h2 : parse_response_partial raw required = (none, []) := by
        unfold parse_response_partial
        rw [h1]
      rw [h2]
      exact ⟨PyErr.validationErr e, h1⟩
    | ok u =>
      cases u
      have h1 : parse_response_partial_try raw required = (Except.ok emails, []) := by
        unfold parse_response_partial_try
        rw [hpl]
        dsimp only
        rw [hv]
      have h2 : parse_response_partial raw required = (some emails, []) := by
        unfold parse_response_partial
        rw [h1]
      rw [h2]
      exact ⟨h1, hv⟩

/-- C6: in the accumulator loop a progress report happens at a step exactly
when the partial parse+validate yields a sequence strictly longer than the
current Progress State (the truthiness conjunct of the source guard being
redundant), and over any chunk sequence the reported counts are strictly
increasing — pairwise, so no later report falls below an earlier one. -/
theorem C6_theorem :
    (∀ chunks : List String, (runStream chunks).events.Pairwise (· < ·)) ∧
    (∀ (ls : LoopState) (chunk : String),
      (streamStep ls chunk).events ≠ ls.events ↔
        ∃ emails, ( parse_response_partial (ls.buffer ++ chunk) ls.required).1 = some emails ∧
          jsonLen emails > jsonLen ls.progress) := by
  constructor
  · intro chunks
    refine (foldl_good chunks initState ⟨List.Pairwise.nil, ?_⟩).1
    intro e he
    exact absurd he (List.not_mem_nil e)
  · exact streamStep_event_iff

/-- C7: for every complete buffer, the Final Validator either returns the
decoded value, which then satisfies the strict schema, or fails with exactly
one of the classified failures — a ParseFailure carrying the raw buffer and
the decode error when decoding failed, or a SchemaFailure carrying the
violation message and path when decoding succeeded but validation failed —
logging and surfacing each failure; the unexpected-failure branch of line 99
is never produced, and no invalid value is ever returned. -/
theorem C7_theorem : ∀ (raw : String),
    match ( parse_response_full raw initialRequired).1.result with
    | Except.ok emails =>
        jsonLoads raw = Except.ok emails ∧
        validateEmails initialRequired emails = Except.ok () ∧
        ( parse_response_full raw initialRequired).1.logged = [] ∧
        ( parse_response_full raw initialRequired).1.surfaced = []
    | Except.error (Failure.parseFailure b msg) =>
        b = raw ∧ jsonLoads raw = Except.error msg ∧
        ( parse_response_full raw initialRequired).1.logged ≠ [] ∧
        ( parse_response_full raw initialRequired).1.surfaced ≠ []
    | Except.error (Failure.schemaFailure m p) =>
        (∃ emails, jsonLoads raw = Except.ok emails ∧
          validateEmails initialRequired emails = Except.error ⟨p, m⟩) ∧
        ( parse_response_full raw initialRequired).1.logged ≠ [] ∧
        ( parse_response_full raw initialRequired).1.surfaced ≠ []
    | Except.error (Failure.unexpectedFailure _ _) => False := by
  intro raw
  cases hjl : jsonLoads raw with
  | error de =>
    have h1 : ( parse_response_full raw initialRequired).1 =
        { result := Except.error (Failure.parseFailure raw de),
          logged := ["JSON decode error: " ++ de],
          surfaced := [SinkCall.errorBox ("JSON Parse Failed: " ++
              ("JSON decode error: " ++ de)),
            SinkCall.writeBox ("Raw response that failed: " ++ raw)] } := by
      unfold parse_response_full
      rw [hjl]
    rw [h1]
    exact ⟨rfl, rfl, by simp, by simp⟩
  | ok emails =>
    cases hv : validateEmails initialRequired emails with
    | error e =>
      have h1 : ( parse_response_full raw initialRequired).1 =
          { result := Except.error (Failure.schemaFailure e.message e.path),
            logged := ["Schema validation error: " ++ e.message],
            surfaced := [SinkCall.errorBox ("Schema Validation Failed: " ++
                ("Schema validation error: " ++ e.message)),
              SinkCall.writeBox ("Failed at path: " ++ pathRender e.path)] } := by
        unfold parse_response_full
        rw [hjl]
        dsimp only
        rw [hv]
      rw [h1]
      exact ⟨⟨emails, rfl, by rw [hv]⟩, by simp, by simp⟩
    | ok u =>
      cases u
      have h1 : ( parse_response_full raw initialRequired).1 =
          { result := Except.ok emails, logged := [], surfaced := [] } := by
        unfold parse_response_full
        rw [hjl]
        dsimp only
        rw [hv]
      rw [h1]
      exact ⟨rfl, hv, rfl, rfl⟩

/-- C8: on the complete buffer `not json at all` the Final Validator fails in
the JSON-decode branch — a ParseFailure carrying the raw buffer and the
decode error — surfacing the failure and the raw buffer, and in particular
not a SchemaFailure or UnexpectedFailure. -/
theorem C8_theorem :
    ( parse_response_full "not json at all" initialRequired).1.result =
      Except.error (Failure.parseFailure "not json at all" "Expecting value") ∧
    ( parse_response_full "not json at all" initialRequired).1.surfaced =
      [SinkCall.errorBox "JSON Parse Failed: JSON decode error: Expecting value",
       SinkCall.writeBox "Raw response that failed: not json at all"] :=
  ⟨rfl, rfl⟩

/-- C9: Final Validation is idempotent: `parse_response_full` never writes
the schema state it reads, so a second run on the same buffer, from the
state the first run left, produces the identical outcome. -/
theorem C9_theorem : ∀ (raw : String) (required : List String),
    ( parse_response_full raw (( parse_response_full raw required).2)).1 =
      ( parse_response_full raw required).1 ∧
    ( parse_response_full raw required).2 = required := by
  intro raw required
  refine ⟨?_, full_state_id raw required⟩
  rw [full_state_id raw required]

/-- C10 counterexample: the claimed precondition "after at least one prior
call to parse_response_partial (on any input)" is too broad: a prior call on
the empty buffer raises inside `partial_json_parser.loads`, before the
schema copy, so the required list is untouched and `[{}]` is still rejected
afterwards. -/
theorem C10_counterexample :
    ( parse_response_partial "" initialRequired).2 = initialRequired ∧
    ( parse_response_full "[\x7b\x7d]"
        (( parse_response_partial "" initialRequired).2)).1.result =
      Except.error (Failure.schemaFailure "required property missing: email_name"
        [PathElem.idx 0]) :=
  ⟨rfl, rfl⟩

/-- C10 (amended): after any prior `parse_response_partial` call whose
partial JSON load succeeded, the shared `items.required` list has been
emptied in place through the shallow schema copy, so `parse_response_full`
then accepts `[\x7b\x7d]` — an array of one object with every required field
omitted. -/
theorem C10_theorem : ∀ (raw : String) (required : List String) (j : Json),
    partialJsonLoads raw = Except.ok j →
    ( parse_response_full "[\x7b\x7d]"
        (( parse_response_partial raw required).2)).1.result =
      Except.ok (Json.arr [Json.obj []]) := by
  intro raw required j h
  have hst : ( parse_response_partial raw required).2 = [] := by
    rw [partial_eq, h]
    dsimp only
    cases validateEmails [] j with
    | error e => rfl
    | ok u => rfl
  rw [hst]
  rfl

/-- C10 witness: `C10_theorem` at the prior input `[]`, whose partial load
succeeds with the empty array. -/
theorem C10_witness :
    ( parse_response_full "[\x7b\x7d]"
        (( parse_response_partial "[]" initialRequired).2)).1.result =
      Except.ok (Json.arr [Json.obj []]) :=
  C10_theorem "[]" initialRequired (Json.arr []) rfl

end EmailApp
